import Mathlib

/-!
Shallow embedding of the module `xivo/network.py` of the xivo-lib-python
repository, together with proofs about its behaviour.

Modelling conventions: Python strings are modelled as Lean `String` and
`List Char`; Python integers as `Int` (or `Nat` where the source value is
known non-negative); functions that can raise an exception return
`Option` or `Except`; external processes spawned by the shutdown
orchestrator are modelled by an explicit environment of result functions,
with the list of spawned invocations returned as a trace.  The module is
Python 2 code, so `str.isdigit`, `str.upper` and the regular-expression
classes are ASCII.
-/

namespace XivoNetwork

/-- Python 2 `str.isdigit` on a character list: non-empty and every
character an ASCII digit. -/
def pyIsDigitL (cs : List Char) : Bool :=
  !cs.isEmpty && cs.all Char.isDigit

/-- Python `s.startswith(p)`. -/
def py_startswith (s p : String) : Bool :=
  p.toList.isPrefixOf s.toList

/-- Python `s.find(c)`: index of the first occurrence of `c` in `s`,
`-1` if `c` does not occur. -/
def py_str_find : List Char → Char → Int
  | [], _ => -1
  | x :: xs, c =>
    if x == c then 0
    else
      let r := py_str_find xs c
      if r = -1 then -1 else r + 1

/-- Python `''.join` / `sep.join` over a list of strings (`pyJoin sep l`). -/
def pyJoin (sep : String) : List String → String
  | [] => ""
  | [x] => x
  | x :: y :: xs => x ++ sep ++ pyJoin sep (y :: xs)

/-- Embedding of `DECIMAL_SPLIT = re.compile(r'(\d+)').split`: split a
string at its maximal runs of ASCII digits, keeping the digit runs (the
captured separators) in the result, exactly as Python `re.split` with one
capturing group does.  The result alternates (possibly empty) non-digit
chunks with non-empty digit runs, beginning and ending with a non-digit
chunk. -/
def decimal_split : List Char → List (List Char)
  | [] => [[]]
  | c :: cs =>
    let r := decimal_split cs
    if c.isDigit then
      match r with
      | [] :: d :: rest => [] :: (c :: d) :: rest
      | [[]] => [[], [c], []]
      | _ => [] :: [c] :: r
    else
      match r with
      | nd :: rest => (c :: nd) :: rest
      | [] => [[c]]

/-- Embedding of `split_alpha_num`: apply `DECIMAL_SPLIT` and drop the last
element when there is more than one element and the last one is the empty
string. -/
def split_alpha_num (s : String) : List String :=
  let a_n_splitted := decimal_split s.toList
  let strs :=
    if a_n_splitted.length > 1 && (a_n_splitted.getLast? == some []) then
      a_n_splitted.dropLast
    else
      a_n_splitted
  strs.map (fun g => String.mk g)

/-- Embedding of `unsplit_lexdec` (`''.join(map(str, lexdec_seq))`),
specialised to sequences of strings such as those produced by
`split_alpha_num`, on which Python `str` is the identity. -/
def unsplit_lexdec (lexdec_seq : List String) : String :=
  pyJoin "" lexdec_seq

/-! Lemmas for claim C10. -/

theorem string_data_append (a b : String) : (a ++ b).data = a.data ++ b.data := rfl

theorem decimal_split_flatten (cs : List Char) : (decimal_split cs).flatten = cs := by
  induction cs with
  | nil => rfl
  | cons c cs ih =>
    by_cases hc : c.isDigit <;>
      rcases hr : decimal_split cs with _ | ⟨_ | ⟨x, xs⟩, _ | ⟨d, rest⟩⟩ <;>
      rw [hr] at ih <;>
      simp only [decimal_split, hc, hr, if_true, Bool.false_eq_true, if_false,
        List.flatten_cons, List.flatten_nil, List.nil_append, List.append_nil,
        List.cons_append, List.append_assoc] at ih ⊢ <;>
      simp_all

theorem pyJoin_empty_map_mk (l : List (List Char)) :
    (pyJoin "" (l.map (fun g => String.mk g))).data = l.flatten := by
  induction l with
  | nil => rfl
  | cons g l ih =>
    rcases l with _ | ⟨g', l'⟩
    · simp [pyJoin]
    · simp only [List.map, pyJoin] at ih ⊢
      rw [string_data_append, string_data_append, ih]
      simp [List.flatten_cons, String.mk]

theorem flatten_dropLast_of_getLast?_nil (l : List (List Char))
    (h : l.getLast? = some []) : l.dropLast.flatten = l.flatten := by
  have hmem : [] ∈ l.getLast? := by simp [h]
  have := List.dropLast_append_getLast? [] hmem
  conv_rhs => rw [← this]
  simp

/-- C10: concatenating the parts produced by `split_alpha_num` with
`unsplit_lexdec` yields the original string back: the split loses no
characters and keeps digit runs as their original strings (including
leading zeros). -/
theorem split_alpha_num_roundtrip (s : String) :
    unsplit_lexdec (split_alpha_num s) = s := by
  apply String.ext
  simp only [unsplit_lexdec, split_alpha_num]
  rw [pyJoin_empty_map_mk]
  split
  · next hcond =>
    have hlast : (decimal_split s.toList).getLast? = some [] := by
      have h2 := (Bool.and_eq_true _ _).mp hcond |>.right
      simpa using h2
    rw [flatten_dropLast_of_getLast?_nil _ hlast, decimal_split_flatten]
    rfl
  · rw [decimal_split_flatten]
    rfl

/-! Interface-name classifiers. -/

/-- Embedding of `is_vlan_if`: names starting with `vlan` are VLAN names iff
the rest is a non-empty digit string; otherwise the name is a VLAN name iff
its first `'.'` occurs at a position greater than 0 and everything after
that first dot is a non-empty digit string. -/
def is_vlan_if (ifname : String) : Bool :=
  if py_startswith ifname "vlan" then pyIsDigitL (ifname.toList.drop 4)
  else if 0 < py_str_find ifname.toList '.' then
    pyIsDigitL (ifname.toList.drop ((py_str_find ifname.toList '.').toNat + 1))
  else false

/-- Embedding of `is_phy_if` (`'.' not in ifname`). -/
def is_phy_if (ifname : String) : Bool :=
  !(ifname.toList.contains '.')

/-! Lemmas about the helpers. -/

theorem pyIsDigitL_eq_true {ds : List Char} :
    pyIsDigitL ds = true ↔ ds ≠ [] ∧ ds.all Char.isDigit = true := by
  cases ds <;> simp [pyIsDigitL]

theorem py_str_find_ge_neg_one (cs : List Char) (c : Char) :
    -1 ≤ py_str_find cs c := by
  induction cs with
  | nil => simp [py_str_find]
  | cons x xs ih =>
    simp only [py_str_find]
    split
    · omega
    · split
      · omega
      · omega

theorem py_str_find_eq_neg_one {cs : List Char} {c : Char} (h : c ∉ cs) :
    py_str_find cs c = -1 := by
  induction cs with
  | nil => rfl
  | cons x xs ih =>
    simp only [List.mem_cons, not_or] at h
    have hxc : (x == c) = false := beq_eq_false_iff_ne.mpr (Ne.symm h.1)
    simp [py_str_find, hxc, ih h.2]

theorem py_str_find_append (p q : List Char) (c : Char) (hp : c ∉ p) :
    py_str_find (p ++ c :: q) c = (p.length : Int) := by
  induction p with
  | nil => simp [py_str_find]
  | cons x xs ih =>
    simp only [List.mem_cons, not_or] at hp
    have hxc : (x == c) = false := beq_eq_false_iff_ne.mpr (Ne.symm hp.1)
    have hrec := ih hp.2
    have hne : ((xs.length : Int)) ≠ -1 := by omega
    have step : py_str_find ((x :: xs) ++ c :: q) c =
        (if py_str_find (xs ++ c :: q) c = -1 then -1
         else py_str_find (xs ++ c :: q) c + 1) := by
      simp [py_str_find, hxc]
    rw [step, hrec, if_neg hne]
    simp only [List.length_cons]
    push_cast
    omega

theorem py_str_find_decomp {cs : List Char} {c : Char} {k : Nat}
    (h : py_str_find cs c = (k : Int)) :
    ∃ p q, cs = p ++ c :: q ∧ c ∉ p ∧ p.length = k := by
  induction cs generalizing k with
  | nil =>
    exfalso
    simp only [py_str_find] at h
    omega
  | cons x xs ih =>
    by_cases hxc : (x == c) = true
    · have hx : x = c := beq_iff_eq.mp hxc
      simp only [py_str_find, hxc, if_true] at h
      have hk : k = 0 := by omega
      exact ⟨[], xs, by simp [hx], by simp, by simp [hk]⟩
    · have hxc' : (x == c) = false := by simpa using hxc
      simp only [py_str_find, hxc', Bool.false_eq_true, if_false] at h
      by_cases hr : py_str_find xs c = -1
      · rw [if_pos hr] at h
        exfalso
        omega
      · rw [if_neg hr] at h
        have hge := py_str_find_ge_neg_one xs c
        have hx' : py_str_find xs c = ((k - 1 : Nat) : Int) := by omega
        obtain ⟨p, q, hpq, hcp, hlen⟩ := ih hx'
        refine ⟨x :: p, q, by rw [hpq]; simp, ?_, ?_⟩
        · simp only [List.mem_cons, not_or]
          refine ⟨fun hcx => ?_, hcp⟩
          rw [hcx] at hxc'
          simp at hxc'
        · simp only [List.length_cons, hlen]
          omega

theorem drop_append_cons (p q : List Char) (c : Char) :
    (p ++ c :: q).drop (p.length + 1) = q := by
  have h : p ++ c :: q = (p ++ [c]) ++ q := by simp
  have h2 : p.length + 1 = (p ++ [c]).length := by simp
  rw [h, h2, List.drop_left]

theorem not_mem_of_all_isDigit {ds : List Char} (h : ds.all Char.isDigit = true) :
    '.' ∉ ds := by
  intro hmem
  have := (List.all_eq_true.mp h) '.' hmem
  simp at this

theorem vlan_toList : ("vlan").toList = ['v', 'l', 'a', 'n'] := by decide

/-- C3 counterexample: the name `vlan5` is classified both as a physical
interface (it contains no dot) and as a VLAN interface, so the two
classifications are not mutually exclusive. -/
theorem phy_vlan_not_exclusive :
    is_phy_if "vlan5" = true ∧ is_vlan_if "vlan5" = true := by decide

/-- C3 (amended): the physical and VLAN classifications overlap exactly on
names of the form `vlan<digits>` (with a non-empty digit suffix); every
other name satisfies at most one of `is_phy_if`, `is_vlan_if`. -/
theorem phy_and_vlan_iff_vlan_digits (n : String) :
    (is_phy_if n = true ∧ is_vlan_if n = true) ↔
      ∃ ds, n.toList = ['v', 'l', 'a', 'n'] ++ ds ∧ ds ≠ [] ∧
        ds.all Char.isDigit = true := by
  constructor
  · rintro ⟨hp, hv⟩
    have hdot : '.' ∉ n.toList := by simpa [is_phy_if] using hp
    by_cases hs : py_startswith n "vlan" = true
    · rw [is_vlan_if, if_pos hs] at hv
      obtain ⟨t, ht⟩ := List.isPrefixOf_iff_prefix.mp hs
      have htoList : n.toList = ['v', 'l', 'a', 'n'] ++ t := by
        rw [← ht, vlan_toList]
      have hdrop : n.toList.drop 4 = t := by rw [htoList]; rfl
      rw [hdrop] at hv
      obtain ⟨hne, hall⟩ := pyIsDigitL_eq_true.mp hv
      exact ⟨t, htoList, hne, hall⟩
    · exfalso
      rw [is_vlan_if, if_neg hs, py_str_find_eq_neg_one hdot] at hv
      simp at hv
  · rintro ⟨ds, hds, hne, hall⟩
    have hdotds : '.' ∉ ds := not_mem_of_all_isDigit hall
    have hdot : '.' ∉ n.toList := by
      rw [hds]
      intro hmem
      rcases List.mem_append.mp hmem with h | h
      · exact absurd h (by decide)
      · exact hdotds h
    constructor
    · simp only [is_phy_if]
      simpa using hdot
    · have hs : py_startswith n "vlan" = true := by
        apply List.isPrefixOf_iff_prefix.mpr
        exact ⟨ds, by rw [vlan_toList]; exact hds.symm⟩
      rw [is_vlan_if, if_pos hs]
      have hdrop : n.toList.drop 4 = ds := by rw [hds]; rfl
      rw [hdrop]
      exact pyIsDigitL_eq_true.mpr ⟨hne, hall⟩

/-- C3 amended claim, witnessed at the concrete overlap name `vlan5`. -/
theorem phy_and_vlan_iff_vlan_digits_witness :
    ∃ ds, ("vlan5").toList = ['v', 'l', 'a', 'n'] ++ ds ∧ ds ≠ [] ∧
      ds.all Char.isDigit = true :=
  (phy_and_vlan_iff_vlan_digits "vlan5").mp ⟨by decide, by decide⟩

/-- C8 counterexample: `a.b.5` has a `'.'` followed by the non-empty
all-digit suffix `5` (it is `<anything>.<digits>` with anything `a.b`),
yet `is_vlan_if` rejects it, because the code only inspects the suffix
after the FIRST dot. -/
theorem is_vlan_if_dotted_refuted :
    is_vlan_if "a.b.5" = false ∧ "a.b.5" = "a.b" ++ "." ++ "5" := by decide

/-- C8 (amended): `is_vlan_if` returns true iff the name is `vlan<digits>`
(non-empty digit suffix), or the name does not start with `vlan`, its
first `'.'` occurs after at least one character, and everything after that
first dot is a non-empty digit string.  Names starting with `vlan` that
are not `vlan<digits>` are rejected even if they contain a dotted digit
suffix, as are names whose first dot is at position 0 or is followed by
anything but digits. -/
theorem is_vlan_if_characterization (n : String) :
    is_vlan_if n = true ↔
      (∃ ds, n.toList = ['v', 'l', 'a', 'n'] ++ ds ∧ ds ≠ [] ∧
        ds.all Char.isDigit = true) ∨
      (py_startswith n "vlan" = false ∧
        ∃ p ds, n.toList = p ++ '.' :: ds ∧ p ≠ [] ∧ '.' ∉ p ∧ ds ≠ [] ∧
          ds.all Char.isDigit = true) := by
  by_cases hs : py_startswith n "vlan" = true
  · rw [is_vlan_if, if_pos hs]
    constructor
    · intro hv
      obtain ⟨t, ht⟩ := List.isPrefixOf_iff_prefix.mp hs
      have htoList : n.toList = ['v', 'l', 'a', 'n'] ++ t := by rw [← ht, vlan_toList]
      have hdrop : n.toList.drop 4 = t := by rw [htoList]; rfl
      rw [hdrop] at hv
      obtain ⟨hne, hall⟩ := pyIsDigitL_eq_true.mp hv
      exact Or.inl ⟨t, htoList, hne, hall⟩
    · rintro (⟨ds, hds, hne, hall⟩ | ⟨hs', _⟩)
      · have hdrop : n.toList.drop 4 = ds := by rw [hds]; rfl
        rw [hdrop]
        exact pyIsDigitL_eq_true.mpr ⟨hne, hall⟩
      · rw [hs] at hs'
        exact absurd hs' (by simp)
  · have hs' : py_startswith n "vlan" = false := by simpa using hs
    rw [is_vlan_if, if_neg hs]
    constructor
    · intro hv
      by_cases hpos : 0 < py_str_find n.toList '.'
      · rw [if_pos hpos] at hv
        have hnn : (0 : Int) ≤ py_str_find n.toList '.' := by omega
        have hk : py_str_find n.toList '.' =
            ((py_str_find n.toList '.').toNat : Int) :=
          (Int.toNat_of_nonneg hnn).symm
        obtain ⟨p, q, hpq, hcp, hlen⟩ := py_str_find_decomp hk
        have htpos : 0 < (py_str_find n.toList '.').toNat := by omega
        have hplen : 0 < p.length := by omega
        have hdrop : n.toList.drop ((py_str_find n.toList '.').toNat + 1) = q := by
          rw [← hlen, hpq, drop_append_cons]
        rw [hdrop] at hv
        obtain ⟨hne, hall⟩ := pyIsDigitL_eq_true.mp hv
        refine Or.inr ⟨hs', p, q, hpq, ?_, hcp, hne, hall⟩
        intro hp0
        rw [hp0] at hplen
        simp at hplen
      · rw [if_neg hpos] at hv
        simp at hv
    · rintro (⟨ds, hds, hne, hall⟩ | ⟨_, p, ds, hpq, hpne, hpdot, hdsne, hdsall⟩)
      · exfalso
        have hvl : py_startswith n "vlan" = true := by
          apply List.isPrefixOf_iff_prefix.mpr
          exact ⟨ds, by rw [vlan_toList]; exact hds.symm⟩
        rw [hvl] at hs'
        simp at hs'
      · have hfind : py_str_find n.toList '.' = (p.length : Int) := by
          rw [hpq]
          exact py_str_find_append p ds '.' hpdot
        have hplen : 0 < p.length := List.length_pos.mpr hpne
        have hpos : 0 < py_str_find n.toList '.' := by rw [hfind]; omega
        rw [if_pos hpos]
        have htonat : (py_str_find n.toList '.').toNat = p.length := by
          rw [hfind, Int.toNat_natCast]
        have hdrop : n.toList.drop ((py_str_find n.toList '.').toNat + 1) = ds := by
          rw [htonat, hpq, drop_append_cons]
        rw [hdrop]
        exact pyIsDigitL_eq_true.mpr ⟨hdsne, hdsall⟩

/-- C8 amended claim, witnessed at the dotted VLAN name `eth0.100`. -/
theorem is_vlan_if_characterization_witness : is_vlan_if "eth0.100" = true :=
  (is_vlan_if_characterization "eth0.100").mpr
    (Or.inr ⟨by decide, ['e', 't', 'h', '0'], ['1', '0', '0'],
      by decide, by decide, by decide, by decide, by decide⟩)

/-! VLAN name pattern and `get_vlan_info_from_ifname`. -/

/-- Python 2 regular-expression word character (`\w` without `re.UNICODE`):
ASCII letters, digits and underscore. -/
def isWordChar (c : Char) : Bool := c.isAlphanum || c == '_'

/-- Result of matching `VLAN_NAME_SPLITTER`
(`^(?:vlan(\d+)|(\W+)\.(\d+)|(?!vlan)[^\.]*\.(\d+))$`): the constructor
records which alternative matched and its captured groups (`mk1` for
group 1, `mk2` for groups 2 and 3, `mk3` for group 4). -/
inductive VlanNameMatch where
  | mk1 (ds : List Char)
  | mk2 (w ds : List Char)
  | mk3 (ds : List Char)
deriving DecidableEq

/-- Embedding of `VLAN_NAME_SPLITTER`.  The three alternatives are tried
in order.  In the second and third alternatives the anchored tail
`\.(\d+)$` forces the matched dot to be the last dot of the name, followed
by a non-empty all-digit run; the second alternative requires a non-empty
run of non-word characters before that dot (digits are word characters, so
that run is exactly the part before the last dot), and the third requires
a dot-free run with a negative lookahead refusing names that start with
`vlan`. -/
def vlan_name_splitter (ifname : String) : Option VlanNameMatch :=
  let cs := ifname.toList
  if py_startswith ifname "vlan" && pyIsDigitL (cs.drop 4) then
    some (.mk1 (cs.drop 4))
  else
    let rcs := cs.reverse
    let rds := rcs.takeWhile Char.isDigit
    match rcs.dropWhile Char.isDigit with
    | '.' :: rw =>
      if rds.isEmpty then none
      else if !rw.isEmpty && rw.all (fun c => !(isWordChar c)) then
        some (.mk2 rw.reverse rds.reverse)
      else if !(py_startswith ifname "vlan") && rw.all (fun c => !(c == '.')) then
        some (.mk3 rds.reverse)
      else none
    | _ => none

/-- Result dictionary of `get_vlan_info_from_ifname`: optional entries
`vlan-id` and `vlan-raw-device`. -/
structure VlanInfo where
  vlanId : Option Nat
  vlanRawDevice : Option String
deriving DecidableEq

/-- Python `int` applied to a non-empty string of ASCII digits. -/
def digitsToNat (ds : List Char) : Nat :=
  ds.foldl (fun a c => a * 10 + (c.toNat - 48)) 0

/-- Embedding of `get_vlan_info_from_ifname`: group 1 gives a bare
`vlan-id`; groups 2 and 3 give `vlan-raw-device` and `vlan-id`; group 4
gives a bare `vlan-id`; no match gives the empty dictionary. -/
def get_vlan_info_from_ifname (ifname : String) : VlanInfo :=
  match vlan_name_splitter ifname with
  | none => ⟨none, none⟩
  | some (.mk1 ds) => ⟨some (digitsToNat ds), none⟩
  | some (.mk2 w ds) => ⟨some (digitsToNat ds), some (String.mk w)⟩
  | some (.mk3 ds) => ⟨some (digitsToNat ds), none⟩

/-- C1 (evaluation at the failing input): for the dotted name `eth0.5`,
whose base `eth0` is a non-empty name, `get_vlan_info_from_ifname` returns
only the VLAN id and no raw device: the `(\W+)\.(\d+)` alternative of
`VLAN_NAME_SPLITTER` demands a base made of NON-word characters, so
`eth0.5` falls through to the bare alternative, which captures no raw
device.  A raw device is produced only for non-word bases such as `-.5`,
and the `vlanN` form gives a bare id. -/
theorem get_vlan_info_from_ifname_eval :
    get_vlan_info_from_ifname "eth0.5" = ⟨some 5, none⟩ ∧
    get_vlan_info_from_ifname "-.5" = ⟨some 5, some "-"⟩ ∧
    get_vlan_info_from_ifname "vlan7" = ⟨some 7, none⟩ := by decide

/-! Netmask arithmetic. -/

/-- Big-endian bytes of a 32-bit value, as produced by
`struct.unpack("BBBB", socket.inet_aton(str(v)))`. -/
def bytesOfWord (v : Nat) : Nat × Nat × Nat × Nat :=
  ((v >>> 24) % 256, (v >>> 16) % 256, (v >>> 8) % 256, v % 256)

/-- The 32-bit value of a big-endian 4-byte tuple (helper used to state
bit-level properties of netmask tuples). -/
def wordOfBytes : Nat × Nat × Nat × Nat → Nat
  | (a, b, c, d) => ((a * 256 + b) * 256 + c) * 256 + d

/-- Embedding of `bitmask_to_mask_ipv4`: Python raises `ValueError`
("negative shift count") exactly when `32 - bits < 0`; otherwise
`(0xFFFFFFFF >> (32 - bits)) << (32 - bits)` is computed on unbounded
integers and converted to its 4 big-endian bytes. -/
def bitmask_to_mask_ipv4 (bits : Int) : Except String (Nat × Nat × Nat × Nat) :=
  if 32 < bits then Except.error "negative shift count"
  else
    Except.ok (bytesOfWord
      ((0xFFFFFFFF >>> (32 - bits).toNat) <<< (32 - bits).toNat))

/-- Embedding of `bitmask_to_mask_ipv6`: the result is modelled as the
list of eight 16-bit words that the Python code builds as packed 2-byte
strings (`"\xff\xff"` for full words, one partial word, `"\x00\x00"`
padding). -/
def bitmask_to_mask_ipv6 (bits : Int) : Except String (List Nat) :=
  if 0 ≤ bits ∧ bits ≤ 128 then
    let b := bits.toNat
    let nb := b / 16
    let ret1 : List Nat := List.replicate nb 0xFFFF
    let rem := b - 16 * nb
    let ret2 :=
      if 0 < rem then ret1 ++ [(0xFFFF >>> (16 - rem)) <<< (16 - rem)]
      else ret1
    Except.ok (ret2 ++ List.replicate (8 - ret2.length) 0)
  else
    Except.error ("Invalid bitmask: " ++ toString bits)

/-- Embedding of the precomputed `_valid_netmask` set
(`struct.unpack("BBBB", struct.pack(">L", 0xFFFFFFFF ^ ((1 << m) - 1)))`
for `m` in `0..32`), modelled as the 33-entry list of byte 4-tuples. -/
def validNetmasks : List (Nat × Nat × Nat × Nat) :=
  (List.range 33).map (fun m => bytesOfWord (0xFFFFFFFF ^^^ ((1 <<< m) - 1)))

/-- Embedding of `plausible_netmask`: membership in `_valid_netmask`. -/
def plausible_netmask (addr : Nat × Nat × Nat × Nat) : Bool :=
  decide (addr ∈ validNetmasks)

/-- C4 counterexample: `bitmask_to_mask_ipv4` does NOT fail on the
out-of-domain argument `-1`: a negative `bits` makes both shift counts
positive, the shifted value is 0, and the function returns `(0, 0, 0, 0)`
instead of raising. -/
theorem bitmask_ipv4_neg_no_error :
    bitmask_to_mask_ipv4 (-1) = Except.ok (0, 0, 0, 0) := rfl

/-- C4 (amended): `bitmask_to_mask_ipv4` fails exactly for `bits > 32`
(Python negative shift count) and silently returns `(0, 0, 0, 0)` for
negative `bits`, while `bitmask_to_mask_ipv6` fails exactly outside
`0..128`; inside `0..32` respectively `0..128` neither raises. -/
theorem bitmask_range_behaviour :
    (∀ bits : Int, 32 < bits →
      bitmask_to_mask_ipv4 bits = Except.error "negative shift count")
    ∧ (∀ bits : Int, bits < 0 →
      bitmask_to_mask_ipv4 bits = Except.ok (0, 0, 0, 0))
    ∧ (∀ bits : Int, 0 ≤ bits → bits ≤ 32 →
      ∃ t, bitmask_to_mask_ipv4 bits = Except.ok t)
    ∧ (∀ bits : Int, bits < 0 ∨ 128 < bits →
      ∃ e, bitmask_to_mask_ipv6 bits = Except.error e)
    ∧ (∀ bits : Int, 0 ≤ bits → bits ≤ 128 →
      ∃ t, bitmask_to_mask_ipv6 bits = Except.ok t) := by
  refine ⟨?_, ?_, ?_, ?_, ?_⟩
  · intro bits h
    rw [bitmask_to_mask_ipv4, if_pos h]
  · intro bits h
    rw [bitmask_to_mask_ipv4, if_neg (by omega)]
    have hsh : 33 ≤ (32 - bits).toNat := by omega
    have hz : (0xFFFFFFFF >>> (32 - bits).toNat) = 0 := by
      rw [Nat.shiftRight_eq_div_pow]
      apply Nat.div_eq_of_lt
      calc (0xFFFFFFFF : Nat) < 2 ^ 33 := by norm_num
        _ ≤ 2 ^ (32 - bits).toNat := Nat.pow_le_pow_right (by norm_num) hsh
    rw [hz, Nat.zero_shiftLeft]
    rfl
  · intro bits h1 h2
    rw [bitmask_to_mask_ipv4, if_neg (by omega)]
    exact ⟨_, rfl⟩
  · intro bits h
    rw [bitmask_to_mask_ipv6, if_neg (by omega)]
    exact ⟨_, rfl⟩
  · intro bits h1 h2
    rw [bitmask_to_mask_ipv6, if_pos ⟨h1, h2⟩]
    exact ⟨_, rfl⟩

/-- C4 amended claim, witnessed at `33`, `-5`, `24`, `129` and `64`. -/
theorem bitmask_range_behaviour_witness :
    bitmask_to_mask_ipv4 33 = Except.error "negative shift count" ∧
    bitmask_to_mask_ipv4 (-5) = Except.ok (0, 0, 0, 0) ∧
    (∃ t, bitmask_to_mask_ipv4 24 = Except.ok t) ∧
    (∃ e, bitmask_to_mask_ipv6 129 = Except.error e) ∧
    (∃ t, bitmask_to_mask_ipv6 64 = Except.ok t) :=
  ⟨bitmask_range_behaviour.1 33 (by decide),
   bitmask_range_behaviour.2.1 (-5) (by decide),
   bitmask_range_behaviour.2.2.1 24 (by decide) (by decide),
   bitmask_range_behaviour.2.2.2.1 129 (Or.inr (by decide)),
   bitmask_range_behaviour.2.2.2.2 64 (by decide) (by decide)⟩

/-! Lemmas for claim C5. -/

theorem shift_xor_eq :
    ∀ m < 33, (0xFFFFFFFF >>> m) <<< m = 0xFFFFFFFF ^^^ ((1 <<< m) - 1) := by
  decide

theorem entry_lt : ∀ m < 33, 0xFFFFFFFF ^^^ ((1 <<< m) - 1) < 2 ^ 32 := by
  decide

theorem entry_testBit :
    ∀ m < 33, ∀ k < 32,
      (0xFFFFFFFF ^^^ ((1 <<< m) - 1)).testBit k = decide (m ≤ k) := by
  decide

theorem wordOfBytes_bytesOfWord {v : Nat} (hv : v < 2 ^ 32) :
    wordOfBytes (bytesOfWord v) = v := by
  have h32 : (2 : Nat) ^ 32 = 4294967296 := by norm_num
  rw [h32] at hv
  simp only [bytesOfWord, wordOfBytes, Nat.shiftRight_eq_div_pow]
  have h24 : (2 : Nat) ^ 24 = 16777216 := by norm_num
  have h16 : (2 : Nat) ^ 16 = 65536 := by norm_num
  have h8 : (2 : Nat) ^ 8 = 256 := by norm_num
  rw [h24, h16, h8]
  omega

/-- C5: `_valid_netmask` has 33 entries; every prefix length `0..32`
produces through `bitmask_to_mask_ipv4` a tuple that belongs to the
precomputed valid-netmask set and that `plausible_netmask` accepts; and
every 4-byte tuple whose 32-bit value has a set bit in a strictly lower
position than some unset bit (both positions within the 32 bits) is
rejected by `plausible_netmask`. -/
theorem netmask_set_correct :
    validNetmasks.length = 33 ∧
    (∀ n : Nat, n ≤ 32 →
      ∃ t, bitmask_to_mask_ipv4 (n : Int) = Except.ok t ∧
        t ∈ validNetmasks ∧ plausible_netmask t = true) ∧
    (∀ a b c d i j : Nat, a < 256 → b < 256 → c < 256 → d < 256 →
      i < j → j < 32 →
      (wordOfBytes (a, b, c, d)).testBit i = true →
      (wordOfBytes (a, b, c, d)).testBit j = false →
      plausible_netmask (a, b, c, d) = false) := by
  refine ⟨rfl, ?_, ?_⟩
  · intro n hn
    have ht : ((32 : Int) - (n : Int)).toNat = 32 - n := by omega
    have heq : (0xFFFFFFFF >>> (32 - n)) <<< (32 - n) =
        0xFFFFFFFF ^^^ ((1 <<< (32 - n)) - 1) := shift_xor_eq (32 - n) (by omega)
    have hmem :
        bytesOfWord ((0xFFFFFFFF >>> (32 - n)) <<< (32 - n)) ∈ validNetmasks := by
      rw [heq]
      exact List.mem_map.mpr ⟨32 - n, List.mem_range.mpr (by omega), rfl⟩
    refine ⟨_, ?_, hmem, decide_eq_true hmem⟩
    rw [bitmask_to_mask_ipv4, if_neg (by omega), ht]
  · intro a b c d i j ha hb hc hd hij hj h1 h0
    rw [plausible_netmask, decide_eq_false_iff_not]
    intro hmem
    obtain ⟨m, hmr, hfm⟩ := List.mem_map.mp hmem
    have hm : m < 33 := List.mem_range.mp hmr
    have hlt : 0xFFFFFFFF ^^^ ((1 <<< m) - 1) < 2 ^ 32 := entry_lt m hm
    have hw : wordOfBytes (a, b, c, d) = 0xFFFFFFFF ^^^ ((1 <<< m) - 1) := by
      rw [← hfm, wordOfBytes_bytesOfWord hlt]
    rw [hw] at h1 h0
    have hb1 := entry_testBit m hm i (by omega)
    have hb0 := entry_testBit m hm j hj
    rw [h1] at hb1
    rw [h0] at hb0
    have hi : m ≤ i := of_decide_eq_true hb1.symm
    have hjm : ¬ (m ≤ j) := of_decide_eq_false hb0.symm
    omega

/-- C5 claim, witnessed at prefix length `24` and at the implausible
tuple `(255, 255, 64, 0)` (bit 14 set, bit 15 unset). -/
theorem netmask_set_correct_witness :
    (∃ t, bitmask_to_mask_ipv4 ((24 : Nat) : Int) = Except.ok t ∧
      t ∈ validNetmasks ∧ plausible_netmask t = true) ∧
    plausible_netmask (255, 255, 64, 0) = false :=
  ⟨netmask_set_correct.2.1 24 (by decide),
   netmask_set_correct.2.2 255 255 64 0 14 15 (by decide) (by decide)
     (by decide) (by decide) (by decide) (by decide) (by decide) (by decide)⟩

/-! Python string splitting on a separator character. -/

/-- Split off the part of `cs` before the first occurrence of `sep`,
together with the remainder after `sep`; `none` if `sep` does not occur. -/
def splitAtFirst (sep : Char) : List Char → Option (List Char × List Char)
  | [] => none
  | c :: cs =>
    if c == sep then some ([], cs)
    else (splitAtFirst sep cs).map (fun ba => (c :: ba.1, ba.2))

/-- Worker for `pySplitAll`: `acc` holds the characters of the current
part in reverse. -/
def pySplitAllAux (sep : Char) : List Char → List Char → List (List Char)
  | [], acc => [acc.reverse]
  | c :: cs, acc =>
    if c == sep then acc.reverse :: pySplitAllAux sep cs []
    else pySplitAllAux sep cs (c :: acc)

/-- Python `s.split(sep)` (no maxsplit bound) on character lists: one part
per separator occurrence, empty parts preserved. -/
def pySplitAll (sep : Char) (cs : List Char) : List (List Char) :=
  pySplitAllAux sep cs []

/-- Python `s.split(sep, maxsplit)` on character lists: at most `maxsplit`
splits are performed, the remainder (separators included) becomes the last
part. -/
def pySplitChar (sep : Char) : Nat → List Char → List (List Char)
  | 0, cs => [cs]
  | m + 1, cs =>
    match splitAtFirst sep cs with
    | none => [cs]
    | some (b, a) => b :: pySplitChar sep m a

/-! MAC address normalisation. -/

/-- ASCII hexadecimal digit. -/
def isHexDigitChar (c : Char) : Bool :=
  c.isDigit || ('a' ≤ c && c ≤ 'f') || ('A' ≤ c && c ≤ 'F')

/-- Value of an ASCII hexadecimal digit. -/
def hexDigitVal (c : Char) : Nat :=
  if c.isDigit then c.toNat - 48
  else if 'a' ≤ c && c ≤ 'f' then c.toNat - 87
  else c.toNat - 55

/-- Python 2 `int(s, 16)`: optional surrounding whitespace, optional sign,
optional `0x`/`0X` prefix, then a non-empty run of hexadecimal digits;
anything else raises `ValueError` (modelled as `none`).  No range
restriction is applied to the value. -/
def pyIntHex (cs0 : List Char) : Option Int :=
  let cs1 :=
    ((cs0.dropWhile Char.isWhitespace).reverse.dropWhile Char.isWhitespace).reverse
  let signed : Bool × List Char :=
    match cs1 with
    | '-' :: r => (true, r)
    | '+' :: r => (false, r)
    | r => (false, r)
  let cs3 :=
    match signed.2 with
    | '0' :: 'x' :: r => r
    | '0' :: 'X' :: r => r
    | r => r
  if !cs3.isEmpty && cs3.all isHexDigitChar then
    let v : Nat := cs3.foldl (fun a c => a * 16 + hexDigitVal c) 0
    some (if signed.1 then -(v : Int) else (v : Int))
  else none

/-- Uppercase hexadecimal digits of a natural number (Python `%X`). -/
def natHexUpper (n : Nat) : List Char :=
  (Nat.toDigits 16 n).map Char.toUpper

/-- Python `'%02X' % v`: uppercase hexadecimal, zero-padded to width 2;
for a negative value the sign counts towards the width, as in Python, and
values above `0xFF` are formatted without truncation. -/
def format02X (v : Int) : String :=
  if v < 0 then
    String.mk ('-' :: List.replicate (1 - (natHexUpper v.natAbs).length) '0'
      ++ natHexUpper v.natAbs)
  else
    String.mk (List.replicate (2 - (natHexUpper v.toNat).length) '0'
      ++ natHexUpper v.toNat)

/-- Left-to-right conversion of every octet with `int(_, 16)`, stopping at
the first failure — the evaluation order of the list comprehension in
`normalize_mac_address`. -/
def parseAllHex : List (List Char) → Option (List Int)
  | [] => some []
  | p :: ps =>
    match pyIntHex p with
    | none => none
    | some v => (parseAllHex ps).map (fun vs => v :: vs)

/-- Embedding of `normalize_mac_address`: upper-case the input, split on
`':'` with maxsplit 6, require exactly 6 parts, convert each part with
`int(_, 16)` and format the values with `'%02X'` joined by `':'`. -/
def normalize_mac_address (macaddr : String) : Except String String :=
  let macaddr_split := pySplitChar ':' 6 (macaddr.toList.map Char.toUpper)
  if macaddr_split.length ≠ 6 then
    Except.error ("Bad format for mac address " ++ macaddr)
  else
    match parseAllHex macaddr_split with
    | none => Except.error ("invalid literal for int with base 16 in " ++ macaddr)
    | some vals => Except.ok (pyJoin ":" (vals.map format02X))

theorem parseAllHex_eq_none {l : List (List Char)}
    (h : ∃ p ∈ l, pyIntHex p = none) : parseAllHex l = none := by
  induction l with
  | nil => simp at h
  | cons x xs ih =>
    obtain ⟨p, hp, hnone⟩ := h
    rcases List.mem_cons.mp hp with rfl | hp'
    · simp [parseAllHex, hnone]
    · rw [parseAllHex]
      cases hx : pyIntHex x
      · rfl
      · simp [ih ⟨p, hp', hnone⟩]

/-- C7 counterexample: `normalize_mac_address` does NOT reject octets
whose hexadecimal value exceeds 255 — there is no range check after
`int(s, 16)` — so the out-of-range octet `1ff` (value 511) is formatted
without truncation instead of raising. -/
theorem normalize_mac_no_range_check :
    normalize_mac_address "1ff:0:0:0:0:0" =
      Except.ok "1FF:00:00:00:00:00" := rfl

/-- C7 (amended): `normalize_mac_address` raises `ValueError` for every
input whose `':'`-split (maxsplit 6) does not have exactly 6 parts and for
every input in which some octet is not parseable as a base-16 integer;
octets whose value is outside 0..255 are NOT rejected and are formatted
without truncation; on every parseable 6-octet input it returns the octet
values formatted uppercase with `'%02X'` (zero-padded to at least two hex
digits) and joined by `':'`. -/
theorem normalize_mac_behaviour :
    (∀ s : String,
      (pySplitChar ':' 6 (s.toList.map Char.toUpper)).length ≠ 6 →
      ∃ e, normalize_mac_address s = Except.error e)
    ∧ (∀ s : String,
      (∃ p ∈ pySplitChar ':' 6 (s.toList.map Char.toUpper), pyIntHex p = none) →
      ∃ e, normalize_mac_address s = Except.error e)
    ∧ (∀ s : String, ∀ vals : List Int,
      (pySplitChar ':' 6 (s.toList.map Char.toUpper)).length = 6 →
      parseAllHex (pySplitChar ':' 6 (s.toList.map Char.toUpper)) = some vals →
      normalize_mac_address s = Except.ok (pyJoin ":" (vals.map format02X))) := by
  refine ⟨?_, ?_, ?_⟩
  · intro s h
    rw [normalize_mac_address]
    rw [if_pos h]
    exact ⟨_, rfl⟩
  · intro s h
    rw [normalize_mac_address]
    split
    · exact ⟨_, rfl⟩
    · rw [parseAllHex_eq_none h]
      exact ⟨_, rfl⟩
  · intro s vals h6 hp
    rw [normalize_mac_address]
    rw [if_neg (not_not_intro h6), hp]

/-- C7 amended claim, witnessed at the spec's own example input. -/
theorem normalize_mac_behaviour_witness :
    normalize_mac_address "1a:b:c:d:e:f" = Except.ok "1A:0B:0C:0D:0E:0F" :=
  normalize_mac_behaviour.2.2 "1a:b:c:d:e:f" [26, 11, 12, 13, 14, 15] rfl rfl

/-! Route-list output parsing. -/

/-- Character class `[\d.:]` of the route-list pattern. -/
def isRouteChar (c : Char) : Bool := c.isDigit || c == '.' || c == ':'

/-- One route entry produced by `route_list`: destination, prefix length
and gateway.  Python keeps the matched prefix group as the matched TEXT
(a string) and uses the integer `32` only when the group is absent, so the
middle field mixes the two types. -/
structure RouteEntry where
  destination : String
  prefix_length : String ⊕ Nat
  gateway : String
deriving DecidableEq

/-- Helper for `parse_route_line`: match the literal ` via ` followed by
the gateway group `([\d.:]+)`; the trailing `.*` of the pattern matches
anything, so the rest of the line is unconstrained. -/
def route_after_via (d : List Char) (p : Option (List Char)) (r : List Char) :
    Option RouteEntry :=
  if (" via ").toList.isPrefixOf r then
    let g := (r.drop 5).takeWhile isRouteChar
    if g.isEmpty then none
    else
      some ⟨String.mk d,
        (match p with
         | some ps => Sum.inl (String.mk ps)
         | none => Sum.inr 32),
        String.mk g⟩
  else none

/-- Embedding of the per-line pattern
`^([\d.:]+)(?:/(\d+))? via ([\d.:]+).*` used by `route_list` (`re.match`
anchors at the start only).  Greedy matching is deterministic here: the
character classes contain neither `'/'` nor `' '`, so maximal munch is
forced and no backtracking can succeed where this parser fails. -/
def parse_route_line (line : String) : Option RouteEntry :=
  let cs := line.toList
  let d := cs.takeWhile isRouteChar
  let r1 := cs.dropWhile isRouteChar
  if d.isEmpty then none
  else
    match r1 with
    | '/' :: r2 =>
      let p := r2.takeWhile Char.isDigit
      let r3 := r2.dropWhile Char.isDigit
      if p.isEmpty then none
      else route_after_via d (some p) r3
    | _ => route_after_via d none r1

/-- Embedding of the parsing part of `route_list`: split the output of the
spawned routing command (modelled as the `output` argument) on newlines
and keep one entry per matching line, silently dropping the rest. -/
def route_list (output : String) : List RouteEntry :=
  (pySplitAll '\n' output.toList).filterMap
    (fun l => parse_route_line (String.mk l))

/-- C9 counterexample: on the documented line the matched prefix group is
kept as the string `"24"`, not as the number 24 — only the defaulted
prefix length is a number. -/
theorem route_line_prefix_is_text :
    parse_route_line "10.0.0.0/24 via 192.168.1.1 dev eth0" =
      some ⟨"10.0.0.0", Sum.inl "24", "192.168.1.1"⟩ ∧
    (Sum.inl "24" : String ⊕ Nat) ≠ Sum.inr 24 :=
  ⟨rfl, by simp⟩

/-- C9 (amended): a line `10.0.0.0/24 via 192.168.1.1 dev eth0` yields
destination `"10.0.0.0"`, the prefix length as the matched text `"24"` (a
string, not a number), and gateway `"192.168.1.1"`; a line with no
`/prefix` group yields the number 32; a non-matching line (for example
the empty string) yields no entry, and `route_list` keeps exactly the
entries of the matching lines. -/
theorem route_list_parsing :
    parse_route_line "10.0.0.0/24 via 192.168.1.1 dev eth0" =
      some ⟨"10.0.0.0", Sum.inl "24", "192.168.1.1"⟩ ∧
    parse_route_line "10.0.0.0 via 192.168.1.1 dev eth0" =
      some ⟨"10.0.0.0", Sum.inr 32, "192.168.1.1"⟩ ∧
    parse_route_line "" = none ∧
    route_list
        "10.0.0.0/24 via 192.168.1.1 dev eth0\n\n10.0.0.0 via 192.168.1.1 dev eth0" =
      [⟨"10.0.0.0", Sum.inl "24", "192.168.1.1"⟩,
       ⟨"10.0.0.0", Sum.inr 32, "192.168.1.1"⟩] :=
  ⟨rfl, rfl, rfl, rfl⟩

/-! Interface shutdown orchestrator. -/

/-- One external-process invocation spawned by `force_shutdown`. -/
inductive Invocation where
  | ifplugdKill (phy : String)
  | ifdown (iface : String)
deriving DecidableEq

/-- External state seen by `force_shutdown`: the registered interfaces
(`get_linux_netdev_list`) and the result of spawning each external
command — `none` models an `OSError` (the binary could not be spawned),
`some s` models exit status `s` of `subprocess.call`. -/
structure Env where
  netdevList : List String
  ifplugdKillRes : String → Option Int
  ifdownRes : String → Option Int

/-- The registered VLAN children of `phy`: interfaces of the registered
list whose name starts with `phy + "."`, in registration order (the
`vlans_phy` list comprehension of `force_shutdown`). -/
def vlan_children (env : Env) (phy : String) : List String :=
  env.netdevList.filter (fun vlan => py_startswith vlan (phy ++ "."))

/-- The `for vlan in vlans_phy` loop of `force_shutdown`: spawn `ifdown`
on each interface in order, stopping at the first spawn failure or
non-zero exit status with a `NetworkOpError`.  Returns the trace of
attempted invocations and the outcome. -/
def ifdown_all (env : Env) : List String → List Invocation × Except String Unit
  | [] => ([], Except.ok ())
  | vlan :: rest =>
    match env.ifdownRes vlan with
    | none =>
      ([.ifdown vlan],
        Except.error ("could not invoke ifdown to shutdown interface " ++ vlan))
    | some status =>
      if status = 0 then
        let r := ifdown_all env rest
        (.ifdown vlan :: r.1, r.2)
      else
        ([.ifdown vlan],
          Except.error ("ifdown miserably failed to shutdown the " ++ vlan ++
            " network interface"))

/-- Embedding of `force_shutdown`: stop the `ifplugd` instance of `phy`
(exit status 6 — instance already stopped — only logs a warning and
proceeds), then bring down the registered VLAN children of `phy` and
finally `phy` itself with `ifdown`, aborting at the first failure. -/
def force_shutdown (env : Env) (phy : String) :
    List Invocation × Except String Unit :=
  match env.ifplugdKillRes phy with
  | none =>
    ([.ifplugdKill phy],
      Except.error ("could not invoke ifplugd to kill its " ++ phy ++ " instance"))
  | some status =>
    if status = 0 ∨ status = 6 then
      let r := ifdown_all env (vlan_children env phy ++ [phy])
      (.ifplugdKill phy :: r.1, r.2)
    else
      ([.ifplugdKill phy],
        Except.error ("ifplugd miserably failed while trying to kill instance " ++ phy))

/-! Lemmas for claims C2 and C6. -/

theorem ifdown_all_ok {env : Env} {l : List String}
    (h : ∀ v ∈ l, env.ifdownRes v = some 0) :
    ifdown_all env l = (l.map Invocation.ifdown, Except.ok ()) := by
  induction l with
  | nil => rfl
  | cons v rest ih =>
    have hv : env.ifdownRes v = some 0 := h v (by simp)
    have hrec := ih (fun u hu => h u (by simp [hu]))
    simp [ifdown_all, hv, hrec]

theorem ifdown_all_fail {env : Env} {pre : List String} {v : String}
    (post : List String)
    (hpre : ∀ u ∈ pre, env.ifdownRes u = some 0)
    (hv : env.ifdownRes v ≠ some 0) :
    ∃ msg, ifdown_all env (pre ++ v :: post) =
      ((pre ++ [v]).map Invocation.ifdown, Except.error msg) := by
  induction pre with
  | nil =>
    cases hres : env.ifdownRes v with
    | none =>
      exact ⟨"could not invoke ifdown to shutdown interface " ++ v,
        by simp [ifdown_all, hres]⟩
    | some s =>
      have hs : ¬ (s = 0) := by rintro rfl; exact hv hres
      exact ⟨"ifdown miserably failed to shutdown the " ++ v ++
        " network interface", by simp [ifdown_all, hres, hs]⟩
  | cons u rest ih =>
    have hu : env.ifdownRes u = some 0 := hpre u (by simp)
    obtain ⟨msg, hmsg⟩ := ih (fun w hw => hpre w (by simp [hw]))
    exact ⟨msg, by simp [ifdown_all, hu, hmsg]⟩

/-- C2: when the `ifplugd` kill step succeeds, `force_shutdown phy` spawns
exactly one `ifplugd` kill invocation for `phy` first, then one `ifdown`
invocation per registered VLAN child of `phy` in registration order, and
finally one `ifdown` invocation for `phy` itself (the physical interface
always last); and if some `ifdown` invocation fails to spawn or exits
non-zero, the call fails with `NetworkOpError` right there and no further
`ifdown` invocations occur. -/
theorem force_shutdown_order (env : Env) (phy : String)
    (hk : env.ifplugdKillRes phy = some 0) :
    ((∀ v ∈ vlan_children env phy ++ [phy], env.ifdownRes v = some 0) →
      force_shutdown env phy =
        (Invocation.ifplugdKill phy ::
          (vlan_children env phy ++ [phy]).map Invocation.ifdown,
          Except.ok ())) ∧
    (∀ pre v post, vlan_children env phy ++ [phy] = pre ++ v :: post →
      (∀ u ∈ pre, env.ifdownRes u = some 0) →
      env.ifdownRes v ≠ some 0 →
      ∃ msg, force_shutdown env phy =
        (Invocation.ifplugdKill phy :: (pre ++ [v]).map Invocation.ifdown,
          Except.error msg)) := by
  constructor
  · intro hall
    rw [force_shutdown, hk]
    simp [ifdown_all_ok hall]
  · intro pre v post hsplit hpre hv
    obtain ⟨msg, hmsg⟩ := ifdown_all_fail post hpre hv
    rw [← hsplit] at hmsg
    refine ⟨msg, ?_⟩
    rw [force_shutdown, hk]
    simp [hmsg]

/-- Worlds used to witness the C2 shutdown scenario: `eth0` has registered
VLAN children `eth0.10` and `eth0.20` and every external command
succeeds. -/
def envC2 : Env where
  netdevList := ["eth0", "eth0.10", "eth0.20", "eth1"]
  ifplugdKillRes := fun _ => some 0
  ifdownRes := fun _ => some 0

/-- C2 claim, witnessed on the spec's end-to-end scenario: exactly the
four invocations kill(eth0), down(eth0.10), down(eth0.20), down(eth0) in
that order. -/
theorem force_shutdown_order_witness :
    force_shutdown envC2 "eth0" =
      ([Invocation.ifplugdKill "eth0", Invocation.ifdown "eth0.10",
        Invocation.ifdown "eth0.20", Invocation.ifdown "eth0"],
        Except.ok ()) := by
  have h := (force_shutdown_order envC2 "eth0" rfl).1 (fun v hv => rfl)
  exact h

/-- C6: case analysis of the `ifplugd` kill step of `force_shutdown`:
exit status 0 proceeds to the `ifdown` phase; the documented
"already stopped" status 6 only logs a warning and also proceeds; any
other non-zero status fails with `NetworkOpError` before any `ifdown`
invocation; and a spawn failure (`OSError`, modelled as `none`) fails
with `NetworkOpError` as well. -/
theorem force_shutdown_kill_cases (env : Env) (phy : String) :
    (env.ifplugdKillRes phy = some 0 →
      force_shutdown env phy =
        (Invocation.ifplugdKill phy ::
          (ifdown_all env (vlan_children env phy ++ [phy])).1,
          (ifdown_all env (vlan_children env phy ++ [phy])).2)) ∧
    (env.ifplugdKillRes phy = some 6 →
      force_shutdown env phy =
        (Invocation.ifplugdKill phy ::
          (ifdown_all env (vlan_children env phy ++ [phy])).1,
          (ifdown_all env (vlan_children env phy ++ [phy])).2)) ∧
    (∀ s : Int, env.ifplugdKillRes phy = some s → s ≠ 0 → s ≠ 6 →
      force_shutdown env phy =
        ([Invocation.ifplugdKill phy],
          Except.error
            ("ifplugd miserably failed while trying to kill instance " ++ phy))) ∧
    (env.ifplugdKillRes phy = none →
      force_shutdown env phy =
        ([Invocation.ifplugdKill phy],
          Except.error
            ("could not invoke ifplugd to kill its " ++ phy ++ " instance"))) := by
  refine ⟨?_, ?_, ?_, ?_⟩
  · intro h
    rw [force_shutdown, h]
    simp
  · intro h
    rw [force_shutdown, h]
    simp
  · intro s h hs0 hs6
    rw [force_shutdown, h]
    simp [hs0, hs6]
  · intro h
    rw [force_shutdown, h]

/-- World used to witness the C6 warning path: `ifplugd` reports status 6
(instance already stopped). -/
def envC6 : Env where
  netdevList := []
  ifplugdKillRes := fun _ => some 6
  ifdownRes := fun _ => some 0

/-- C6 claim, witnessed on the already-stopped status 6: the shutdown
still proceeds to the `ifdown` phase and succeeds. -/
theorem force_shutdown_kill_cases_witness :
    force_shutdown envC6 "eth0" =
      ([Invocation.ifplugdKill "eth0", Invocation.ifdown "eth0"],
        Except.ok ()) := by
  have h := (force_shutdown_kill_cases envC6 "eth0").2.1 rfl
  exact h

end XivoNetwork
